import Mathlib

/-
Verification of the WGAN-GP training script `Extra_optimistic/script/cifar10.py`.

The script's numeric backend (Keras/TensorFlow autodiff and tensor kernels) is an
external collaborator; following the repository's design document we embed the
orchestration logic, the pure loss arithmetic, the pixel (de)normalization and
the file/phase cadence, with tensors modelled as lists of rationals (or reals
where a square root is computed).
-/

namespace WGAN

/-- `BATCH_SIZE = 64` (cifar10.py line 41). -/
def BATCH_SIZE : ℕ := 64

/-- The fixed epoch count of the training loop, `for epoch in range(50)` (line 379). -/
def NUM_EPOCHS : ℕ := 50

/-! ## Pixel normalization and de-normalization

`X_train = (X_train.astype(np.float32) - 127.5) / 127.5` (line 258) and
`test_image_stack = (test_image_stack * 127.5) + 127.5` followed by
`np.round(...).astype(np.uint8)` (lines 217-218). `np.round` rounds
halves to the nearest even integer, which we model exactly. -/

/-- Input normalization of a pixel value (line 258): `(v - 127.5) / 127.5`. -/
def normalizePixel (v : ℚ) : ℚ := (v - 127.5) / 127.5

/-- De-normalization in `generate_images` (line 217): `t * 127.5 + 127.5`. -/
def denormalizePixel (t : ℚ) : ℚ := t * 127.5 + 127.5

/-- `np.round`: round half to even (banker's rounding), as NumPy does. -/
def roundHalfEven (x : ℚ) : ℤ :=
  if x - ⌊x⌋ < 1/2 then ⌊x⌋
  else if 1/2 < x - ⌊x⌋ then ⌊x⌋ + 1
  else if ⌊x⌋ % 2 = 0 then ⌊x⌋ else ⌊x⌋ + 1

/-- The uint8 pixel saved by `generate_images` (lines 217-218) for a generator
output value `t`. -/
def savedPixel (t : ℚ) : ℤ := roundHalfEven (denormalizePixel t)

theorem roundHalfEven_intCast (n : ℤ) : roundHalfEven ((n : ℚ)) = n := by
  unfold roundHalfEven
  simp

theorem roundHalfEven_bounds (x : ℚ) (a b : ℤ) (ha : (a : ℚ) ≤ x) (hb : x ≤ (b : ℚ)) :
    a ≤ roundHalfEven x ∧ roundHalfEven x ≤ b := by
  unfold roundHalfEven
  have hfa : a ≤ ⌊x⌋ := Int.le_floor.2 ha
  have hfb : ⌊x⌋ ≤ b := by
    have := Int.floor_le_floor hb
    simpa using this
  have hfl : (⌊x⌋ : ℚ) ≤ x := Int.floor_le x
  constructor
  · split
    · exact hfa
    · split
      · omega
      · split
        · exact hfa
        · omega
  · split
    · exact hfb
    · -- in the remaining branches the result can be `⌊x⌋ + 1`; then `x - ⌊x⌋ ≥ 1/2`
      have hr : ¬ (x - ⌊x⌋ < 1/2) := by assumption
      have hr' : (1:ℚ)/2 ≤ x - ⌊x⌋ := le_of_not_lt hr
      have hlt : (⌊x⌋ : ℚ) < b := by
        have : (⌊x⌋ : ℚ) + 1/2 ≤ (b : ℚ) := by linarith
        linarith
      have hfb' : ⌊x⌋ + 1 ≤ b := by exact_mod_cast Int.add_one_le_iff.2 (by exact_mod_cast hlt)
      split
      · exact hfb'
      · split
        · exact hfb
        · exact hfb'

/-- C10: de-normalization exactly inverts normalization on integer pixels
`v ∈ [0, 255]`, and for every generator output `t ∈ [-1, 1]` the saved pixel
`round(t * 127.5 + 127.5)` lies in `[0, 255]` (cifar10.py lines 216-218, 258). -/
theorem denormalize_inverts_normalize :
    (∀ v : ℕ, v ≤ 255 → roundHalfEven (denormalizePixel (normalizePixel (v : ℚ))) = (v : ℤ))
    ∧ (∀ t : ℚ, -1 ≤ t → t ≤ 1 → 0 ≤ savedPixel t ∧ savedPixel t ≤ 255) := by
  constructor
  · intro v _
    have hv : denormalizePixel (normalizePixel (v : ℚ)) = ((v : ℤ) : ℚ) := by
      unfold denormalizePixel normalizePixel
      push_cast
      field_simp
    rw [hv, roundHalfEven_intCast]
  · intro t h1 h2
    have h0 : ((0 : ℤ) : ℚ) ≤ denormalizePixel t := by
      unfold denormalizePixel; push_cast; nlinarith
    have h255 : denormalizePixel t ≤ ((255 : ℤ) : ℚ) := by
      unfold denormalizePixel; push_cast; nlinarith
    exact roundHalfEven_bounds (denormalizePixel t) 0 255 h0 h255

/-- Witness for C10 at the concrete pixel value `v = 200` and output `t = 1/2`. -/
theorem denormalize_inverts_normalize_witness :
    (200 ≤ 255 ∧ roundHalfEven (denormalizePixel (normalizePixel ((200 : ℕ) : ℚ))) = ((200 : ℕ) : ℤ))
    ∧ (-1 ≤ (1 : ℚ)/2 ∧ (1 : ℚ)/2 ≤ 1 ∧ 0 ≤ savedPixel ((1 : ℚ)/2) ∧ savedPixel ((1 : ℚ)/2) ≤ 255) :=
  ⟨⟨by norm_num, denormalize_inverts_normalize.1 200 (by norm_num)⟩,
   ⟨by norm_num, by norm_num,
    denormalize_inverts_normalize.2 ((1 : ℚ)/2) (by norm_num) (by norm_num)⟩⟩

/-! ## Dataset loading (cifar10.py lines 252-258)

`(X_train, y_train), (X_test, y_test) = cifar10.load_data()` followed by
`X_train = np.concatenate((X_train, X_test), axis=0)`; the reshape on
lines 254-257 keeps the sample count, and line 258 normalizes every pixel.
Images are modelled as flattened pixel lists. -/

/-- The array the training loop draws real-image batches from: the train split
concatenated with the test split, then pixel-normalized. -/
def loadTrainingSet (train test : List (List ℚ)) : List (List ℚ) :=
  (train ++ test).map (fun img => img.map normalizePixel)

/-- C8: the training array is the normalized train split followed by the
normalized test split, so the run trains on train+test combined; its length is
the sum of the two split sizes. -/
theorem loadTrainingSet_concat (train test : List (List ℚ)) :
    loadTrainingSet train test
      = train.map (fun img => img.map normalizePixel)
        ++ test.map (fun img => img.map normalizePixel)
    ∧ (loadTrainingSet train test).length = train.length + test.length := by
  constructor
  · unfold loadTrainingSet
    exact List.map_append _ train test
  · unfold loadTrainingSet
    simp

/-! ## Wasserstein loss (cifar10.py lines 44-53)

`return K.mean(y_true * y_pred)`: the mean of the elementwise product. -/

/-- `K.mean`: sum divided by element count. -/
def mean (xs : List ℚ) : ℚ := xs.sum / xs.length

/-- `wasserstein_loss` (line 53): mean of the elementwise product of the true
and predicted batches. -/
def wasserstein_loss (y_true y_pred : List ℚ) : ℚ :=
  mean (List.zipWith (· * ·) y_true y_pred)

/-- Elementwise scalar multiple of a batch. -/
def vecScale (a : ℚ) (xs : List ℚ) : List ℚ := xs.map (fun x => a * x)

/-- Elementwise sum of two batches. -/
def vecAdd (xs ys : List ℚ) : List ℚ := List.zipWith (· + ·) xs ys

/-- Elementwise negation of a batch. -/
def vecNeg (xs : List ℚ) : List ℚ := xs.map (fun x => -x)

theorem vecAdd_cons (b c : ℚ) (us vs : List ℚ) :
    vecAdd (b :: us) (c :: vs) = (b + c) :: vecAdd us vs := rfl

theorem vecScale_cons (a c : ℚ) (ps : List ℚ) :
    vecScale a (c :: ps) = (a * c) :: vecScale a ps := rfl

theorem vecNeg_cons (c : ℚ) (ps : List ℚ) :
    vecNeg (c :: ps) = (-c) :: vecNeg ps := rfl

theorem sum_zipWith_mul_add (y u v : List ℚ) (h : u.length = v.length) :
    (List.zipWith (· * ·) y (vecAdd u v)).sum
      = (List.zipWith (· * ·) y u).sum + (List.zipWith (· * ·) y v).sum := by
  induction y generalizing u v with
  | nil => simp
  | cons a ys ih =>
    cases u with
    | nil =>
      cases v with
      | nil => simp [vecAdd]
      | cons c vs => simp at h
    | cons b us =>
      cases v with
      | nil => simp at h
      | cons c vs =>
        rw [vecAdd_cons, List.zipWith_cons_cons, List.zipWith_cons_cons,
          List.zipWith_cons_cons, List.sum_cons, List.sum_cons, List.sum_cons,
          ih us vs (by simpa using h)]
        ring

theorem sum_zipWith_mul_scale (a : ℚ) (y p : List ℚ) :
    (List.zipWith (· * ·) y (vecScale a p)).sum = a * (List.zipWith (· * ·) y p).sum := by
  induction y generalizing p with
  | nil => simp
  | cons b ys ih =>
    cases p with
    | nil => simp [vecScale]
    | cons c ps =>
      rw [vecScale_cons, List.zipWith_cons_cons, List.zipWith_cons_cons,
        List.sum_cons, List.sum_cons, ih ps]
      ring

theorem sum_zipWith_mul_neg (y : List ℚ) :
    (List.zipWith (· * ·) y (vecNeg y)).sum = -(List.zipWith (· * ·) y y).sum := by
  induction y with
  | nil => simp
  | cons a ys ih =>
    rw [vecNeg_cons, List.zipWith_cons_cons, List.zipWith_cons_cons,
      List.sum_cons, List.sum_cons, ih]
    ring

/-- C4: `wasserstein_loss` is the mean of the elementwise product, is linear in
`y_pred`, and satisfies `wasserstein_loss(y, -y) = -wasserstein_loss(y, y)`. -/
theorem wasserstein_loss_spec (y p q : List ℚ) (a b : ℚ)
    (hp : p.length = y.length) (hq : q.length = y.length) :
    wasserstein_loss y p = mean (List.zipWith (· * ·) y p)
    ∧ wasserstein_loss y (vecAdd (vecScale a p) (vecScale b q))
        = a * wasserstein_loss y p + b * wasserstein_loss y q
    ∧ wasserstein_loss y (vecNeg y) = - wasserstein_loss y y := by
  refine ⟨rfl, ?_, ?_⟩
  · unfold wasserstein_loss mean
    have hu : (vecScale a p).length = (vecScale b q).length := by
      simp [vecScale, hp, hq]
    rw [sum_zipWith_mul_add y _ _ hu, sum_zipWith_mul_scale, sum_zipWith_mul_scale]
    have hL : (List.zipWith (· * ·) y (vecAdd (vecScale a p) (vecScale b q))).length
        = y.length := by
      simp [vecAdd, vecScale, hp, hq]
    have hL1 : (List.zipWith (· * ·) y p).length = y.length := by simp [hp]
    have hL2 : (List.zipWith (· * ·) y q).length = y.length := by simp [hq]
    rw [hL, hL1, hL2, add_div, mul_div_assoc, mul_div_assoc]
  · unfold wasserstein_loss mean
    rw [sum_zipWith_mul_neg]
    have hL : (List.zipWith (· * ·) y (vecNeg y)).length
        = (List.zipWith (· * ·) y y).length := by
      simp [vecNeg]
    rw [hL, neg_div]

/-- Witness for C4 at concrete batches. -/
theorem wasserstein_loss_spec_witness :
    ([3, 4] : List ℚ).length = ([1, -2] : List ℚ).length
    ∧ ([0, 1] : List ℚ).length = ([1, -2] : List ℚ).length
    ∧ wasserstein_loss [1, -2] (vecAdd (vecScale 2 [3, 4]) (vecScale 3 [0, 1]))
        = 2 * wasserstein_loss [1, -2] [3, 4] + 3 * wasserstein_loss [1, -2] [0, 1] :=
  ⟨rfl, rfl, (wasserstein_loss_spec [1, -2] [3, 4] [0, 1] 2 3 rfl rfl).2.1⟩

/-! ## RandomWeightedAverage (cifar10.py lines 201-211)

`_merge_function` draws `weights = K.random_uniform((BATCH_SIZE, 1, 1, 1))`
— one uniform scalar in `[0, 1)` per batch pair, broadcast over the image
components — and returns `weights * inputs[0] + (1 - weights) * inputs[1]`.
The random draw is modelled by a list of per-pair weights together with the
backend's contract that each lies in `[0, 1)`. -/

/-- The per-pair convex combination `w * real + (1 - w) * generated`,
componentwise with the single scalar `w` broadcast (line 211). -/
def randomWeightedAverage (w : ℚ) (real gen : List ℚ) : List ℚ :=
  List.zipWith (fun r g => w * r + (1 - w) * g) real gen

/-- `RandomWeightedAverage._merge_function` at batch level: pair `i` of the
output combines `reals[i]` and `gens[i]` using the single scalar `ws[i]`. -/
def merge_function (ws : List ℚ) (reals gens : List (List ℚ)) : List (List ℚ) :=
  List.zipWith (fun w rg => randomWeightedAverage w rg.1 rg.2) ws (reals.zip gens)

theorem get?_zipWith_some {α β γ : Type} (f : α → β → γ) {l₁ : List α} {l₂ : List β}
    {i : ℕ} {a : α} {b : β} (ha : l₁.get? i = some a) (hb : l₂.get? i = some b) :
    (List.zipWith f l₁ l₂).get? i = some (f a b) := by
  rw [List.get?_zipWith' f l₁ l₂ i, ha, hb]
  rfl

/-- C5: every pair merged by `RandomWeightedAverage` uses a single scalar
weight `w ∈ [0, 1)` (the backend contract for `K.random_uniform`), and each
output component `w * r + (1 - w) * g` lies inclusively between the
corresponding real component `r` and generated component `g`. -/
theorem merge_function_spec (ws : List ℚ) (reals gens : List (List ℚ))
    (hws : ∀ w ∈ ws, 0 ≤ w ∧ w < 1) :
    ∀ i w rg, ws.get? i = some w → (reals.zip gens).get? i = some rg →
      (merge_function ws reals gens).get? i = some (randomWeightedAverage w rg.1 rg.2)
      ∧ ∀ k r g, rg.1.get? k = some r → rg.2.get? k = some g →
          (randomWeightedAverage w rg.1 rg.2).get? k = some (w * r + (1 - w) * g)
          ∧ min r g ≤ w * r + (1 - w) * g ∧ w * r + (1 - w) * g ≤ max r g := by
  intro i w rg hwi hrg
  have hw : 0 ≤ w ∧ w < 1 := hws w (List.get?_mem hwi)
  refine ⟨get?_zipWith_some _ hwi hrg, ?_⟩
  intro k r g hr hg
  refine ⟨get?_zipWith_some _ hr hg, ?_, ?_⟩
  · rcases le_total r g with hle | hle
    · rw [min_eq_left hle]
      nlinarith [hw.1, hw.2]
    · rw [min_eq_right hle]
      nlinarith [hw.1, hw.2]
  · rcases le_total r g with hle | hle
    · rw [max_eq_right hle]
      nlinarith [hw.1, hw.2]
    · rw [max_eq_left hle]
      nlinarith [hw.1, hw.2]

/-- Witness for C5: one pair, weight `1/4`, real `[0, 2]`, generated `[4, 1]`. -/
theorem merge_function_spec_witness :
    (∀ w ∈ [(1 : ℚ)/4], 0 ≤ w ∧ w < 1)
    ∧ (merge_function [(1 : ℚ)/4] [[0, 2]] [[4, 1]]).get? 0
        = some (randomWeightedAverage ((1 : ℚ)/4) [0, 2] [4, 1]) := by
  have h := merge_function_spec [(1 : ℚ)/4] [[0, 2]] [[4, 1]]
    (by intro w hw; simp at hw; subst hw; norm_num)
    0 ((1 : ℚ)/4) ([0, 2], [4, 1]) rfl rfl
  exact ⟨by intro w hw; simp at hw; subst hw; norm_num, h.1⟩

/-! ## Gradient penalty loss (cifar10.py lines 56-72)

```
gradients = K.gradients(K.sum(y_pred), averaged_samples)
gradient_l2_norm = K.sqrt(K.sum(K.square(gradients)))
gradient_penalty = gradient_penalty_weight * K.square(1 - gradient_l2_norm)
```
The autodiff engine computing `K.gradients` is the external numeric
collaborator; the gradient tensor it returns (one row of components per
batch sample) is taken as an argument. `K.sum`/`K.square` reduce over every
component of that tensor jointly. -/

/-- Sum of squared components of one gradient row. -/
def sumSq (g : List ℝ) : ℝ := (g.map (fun x => x ^ 2)).sum

/-- Line 70: `K.sqrt(K.sum(K.square(gradients)))` — square root of the sum of
all squared gradient components, over the whole batch jointly. -/
noncomputable def gradient_l2_norm (grads : List (List ℝ)) : ℝ :=
  Real.sqrt ((grads.map sumSq).sum)

/-- Lines 69-72: the gradient penalty
`gradient_penalty_weight * (1 - gradient_l2_norm)^2`. `y_true` is accepted and
ignored; `grads` stands for `K.gradients(K.sum(y_pred), averaged_samples)`. -/
noncomputable def gradient_penalty_loss (y_true : List ℝ) (grads : List (List ℝ))
    (gradient_penalty_weight : ℝ) : ℝ :=
  gradient_penalty_weight * (1 - gradient_l2_norm grads) ^ 2

/-- Per-sample gradient L2 norms (what the code does NOT compute). -/
noncomputable def perSampleNorms (grads : List (List ℝ)) : List ℝ :=
  grads.map (fun s => Real.sqrt (sumSq s))

/-- Counterexample to C3 as stated: at `gradient_penalty_weight = 0` (the CLI
accepts `--gp 0`) the loss is `0` although the gradient norm is `0 ≠ 1`, so
"the result is zero exactly when the gradient norm equals 1" fails for that
weight. -/
theorem gradient_penalty_zero_weight_counterexample :
    gradient_penalty_loss [0] [[0]] 0 = 0 ∧ gradient_l2_norm [[0]] ≠ 1 := by
  constructor
  · unfold gradient_penalty_loss
    ring
  · unfold gradient_l2_norm
    norm_num [sumSq]

/-- C3 (amended): `gradient_penalty_loss` returns
`weight * (1 - gradient_l2_norm)^2`, never reads `y_true`, and for every
nonzero weight the result is zero exactly when the gradient norm equals 1. -/
theorem gradient_penalty_loss_spec (y_true : List ℝ) (grads : List (List ℝ)) (w : ℝ) :
    gradient_penalty_loss y_true grads w = w * (1 - gradient_l2_norm grads) ^ 2
    ∧ (∀ y_true', gradient_penalty_loss y_true' grads w
        = gradient_penalty_loss y_true grads w)
    ∧ (w ≠ 0 → (gradient_penalty_loss y_true grads w = 0 ↔ gradient_l2_norm grads = 1)) := by
  refine ⟨rfl, fun y_true' => rfl, fun hw => ?_⟩
  unfold gradient_penalty_loss
  rw [mul_eq_zero]
  constructor
  · rintro (h | h)
    · exact absurd h hw
    · have h0 : 1 - gradient_l2_norm grads = 0 := by
        exact pow_eq_zero_iff (two_ne_zero) |>.1 h
      linarith
  · intro h
    right
    rw [h]
    ring

/-- Witness for C3 (amended) at weight `10` and gradient `[[1]]`. -/
theorem gradient_penalty_loss_spec_witness :
    (10 : ℝ) ≠ 0
    ∧ (gradient_penalty_loss [0] [[1]] 10 = 0 ↔ gradient_l2_norm [[1]] = 1) :=
  ⟨by norm_num, (gradient_penalty_loss_spec [0] [[1]] 10).2.2 (by norm_num)⟩

theorem sumSq_append (u v : List ℝ) : sumSq (u ++ v) = sumSq u + sumSq v := by
  unfold sumSq
  rw [List.map_append, List.sum_append]

theorem sumSq_flatten (grads : List (List ℝ)) :
    sumSq grads.flatten = (grads.map sumSq).sum := by
  induction grads with
  | nil => simp [sumSq]
  | cons g gs ih =>
    rw [List.flatten_cons, sumSq_append, ih, List.map_cons, List.sum_cons]

/-- C9: the penalized norm is the Frobenius norm of the full batch gradient —
the square root of the sum of squared components taken jointly over all
samples — and it differs from both the sum and the mean of the per-sample
gradient norms (e.g. on the batch gradient `[[1], [1]]`). -/
theorem gradient_l2_norm_is_joint :
    (∀ grads : List (List ℝ), gradient_l2_norm grads = Real.sqrt (sumSq grads.flatten))
    ∧ gradient_l2_norm [[1], [1]] ≠ (perSampleNorms [[1], [1]]).sum
    ∧ gradient_l2_norm [[1], [1]] ≠ (perSampleNorms [[1], [1]]).sum / 2 := by
  have e1 : gradient_l2_norm [[1], [1]] = Real.sqrt 2 := by
    norm_num [gradient_l2_norm, sumSq]
  have e2 : (perSampleNorms [[1], [1]]).sum = 2 := by
    norm_num [perSampleNorms, sumSq, Real.sqrt_one]
  refine ⟨?_, ?_, ?_⟩
  · intro grads
    unfold gradient_l2_norm
    rw [sumSq_flatten]
  · rw [e1, e2]
    exact ne_of_lt ((Real.sqrt_lt' (by norm_num)).2 (by norm_num))
  · rw [e1, e2]
    norm_num

/-! ## Checkpoint cadence (cifar10.py lines 379, 401-405, 214-225)

Inside `for epoch in range(50)`: `if (epoch+1) % 2 == 0:` call
`generate_images(generator, args.output_dir, epoch)` (which writes
`epoch_<epoch>.png` then `epoch_<epoch>.pkl`) and then save
`epoch_<epoch>_g.h5` and `epoch_<epoch>_d.h5`. The loop index `epoch` starts
at 0, so the 1st epoch of the run has loop index 0. -/

/-- The four artifact names written for a checkpoint at loop index `e`,
in write order (png, pkl from `generate_images`, then the two weight files). -/
def checkpointFiles (e : ℕ) : List String :=
  ["epoch_" ++ toString e ++ ".png", "epoch_" ++ toString e ++ ".pkl",
   "epoch_" ++ toString e ++ "_g.h5", "epoch_" ++ toString e ++ "_d.h5"]

/-- Files written right after the epoch with loop index `e`
(lines 401-405): all four artifacts when `(e + 1) % 2 == 0`, none otherwise. -/
def filesAfterEpoch (e : ℕ) : List String :=
  if (e + 1) % 2 = 0 then checkpointFiles e else []

/-- All files the 50-epoch run writes to the output directory. -/
def runFiles : List String := (List.range NUM_EPOCHS).flatMap filesAfterEpoch

/-- Counterexample to C1 as stated: counted 1-indexed, epoch 1 is the first
epoch, with loop index 0 — and no checkpoint artifact at all is written after
it, since `(0 + 1) % 2 ≠ 0`. Checkpoints only follow the even-numbered epochs
of the run. -/
theorem first_epoch_writes_nothing : filesAfterEpoch 0 = [] := by decide

/-- C1 (amended): over the fixed 50-epoch run, the checkpoint artifacts are
written exactly after the epochs with odd loop index `1, 3, ..., 49` — the
2nd, 4th, ..., 50th epochs counted 1-indexed — and the loop index of the
checkpointed epoch is the `<N>` in each filename; nothing is written after any
other epoch. -/
theorem checkpoint_cadence :
    (∀ e, e < NUM_EPOCHS →
      filesAfterEpoch e = if e % 2 = 1 then checkpointFiles e else [])
    ∧ (∀ f, f ∈ runFiles ↔ ∃ e, e < NUM_EPOCHS ∧ e % 2 = 1 ∧ f ∈ checkpointFiles e) := by
  have key : ∀ e : ℕ, filesAfterEpoch e = if e % 2 = 1 then checkpointFiles e else [] := by
    intro e
    unfold filesAfterEpoch
    have h : (e + 1) % 2 = 0 ↔ e % 2 = 1 := by omega
    by_cases hc : e % 2 = 1
    · rw [if_pos (h.2 hc), if_pos hc]
    · rw [if_neg (fun hh => hc (h.1 hh)), if_neg hc]
  refine ⟨fun e _ => key e, fun f => ?_⟩
  unfold runFiles
  rw [List.mem_flatMap]
  constructor
  · rintro ⟨e, he, hf⟩
    rw [List.mem_range] at he
    rw [key e] at hf
    by_cases hc : e % 2 = 1
    · rw [if_pos hc] at hf
      exact ⟨e, he, hc, hf⟩
    · rw [if_neg hc] at hf
      simp at hf
  · rintro ⟨e, he, hc, hf⟩
    refine ⟨e, List.mem_range.2 he, ?_⟩
    rw [key e, if_pos hc]
    exact hf

/-- Witness for C1 (amended) at loop index 3 (the 4th epoch of the run). -/
theorem checkpoint_cadence_witness :
    3 < NUM_EPOCHS ∧ filesAfterEpoch 3 = checkpointFiles 3 := by
  have h := checkpoint_cadence.1 3 (by decide)
  exact ⟨by decide, by simpa using h⟩

/-! ## The per-epoch training loop (cifar10.py lines 385-397)

```
minibatches_size = BATCH_SIZE * TRAINING_RATIO
for i in range(int(X_train.shape[0] // (BATCH_SIZE * TRAINING_RATIO))):
    discriminator_minibatches = X_train[i * minibatches_size:(i + 1) * minibatches_size]
    for j in range(TRAINING_RATIO):
        image_batch = discriminator_minibatches[j * BATCH_SIZE:(j + 1) * BATCH_SIZE]
        ... discriminator_model.train_on_batch(...)
    ... generator_model.train_on_batch(...)
```
`B` is `BATCH_SIZE` and `R` is `TRAINING_RATIO` (a CLI argument, default 5).
Each `train_on_batch` call is recorded as an event; each discriminator event
carries the real-image slice it trains on (and draws a fresh noise batch,
as does the generator step — one RNG draw per event). -/

/-- Python slicing `xs[a:b]` (for `a ≤ b ≤ len`, as used in the loop). -/
def sliceArr {α : Type} (xs : List α) (a b : ℕ) : List α := (xs.drop a).take (b - a)

/-- One optimizer step of the loop: a discriminator step on a real-image
batch, or a generator step. `noise` is the index of the `np.random.rand`
noise draw the step consumes (line 395 resp. 397): the epoch's PRNG draws
are numbered `0, 1, 2, ...` in the order they are made, so two steps use the
same noise batch exactly when they carry the same index. -/
inductive TrainEvent (α : Type) where
  | dStep (batch : List α) (noise : ℕ) : TrainEvent α
  | gStep (noise : ℕ) : TrainEvent α

/-- The noise-draw index a step consumed. -/
def noiseOf {α : Type} : TrainEvent α → ℕ
  | TrainEvent.dStep _ n => n
  | TrainEvent.gStep n => n

/-- Body of the inner loop (lines 393-396): slice the next `image_batch` out
of `discriminator_minibatches` `dm`, draw the next noise batch, and run one
discriminator step; the state is the event trace so far and the number of
PRNG draws made so far this epoch. -/
def dStepFold {α : Type} (dm : List α) (B : ℕ) (st : List (TrainEvent α) × ℕ)
    (j : ℕ) : List (TrainEvent α) × ℕ :=
  (st.1 ++ [TrainEvent.dStep (sliceArr dm (j * B) ((j + 1) * B)) st.2], st.2 + 1)

/-- Line 397: the generator step, drawing the next noise batch. -/
def gAfter {α : Type} (st : List (TrainEvent α) × ℕ) : List (TrainEvent α) × ℕ :=
  (st.1 ++ [TrainEvent.gStep st.2], st.2 + 1)

/-- Body of the outer loop (lines 389-397): `R` discriminator steps on the
slices of group `i`, then one generator step. -/
def groupFold {α : Type} (X : List α) (B R : ℕ) (st : List (TrainEvent α) × ℕ)
    (i : ℕ) : List (TrainEvent α) × ℕ :=
  gAfter ((List.range R).foldl
    (dStepFold (sliceArr X (i * (B * R)) ((i + 1) * (B * R))) B) st)

/-- The sequence of optimizer steps one epoch performs (lines 389-397),
starting with an empty trace and the epoch's first PRNG draw. -/
def epochRun {α : Type} (X : List α) (B R : ℕ) : List (TrainEvent α) :=
  ((List.range (X.length / (B * R))).foldl (groupFold X B R) ([], 0)).1

theorem sliceArr_length {α : Type} (xs : List α) (a b : ℕ) (h : b ≤ xs.length) :
    (sliceArr xs a b).length = b - a := by
  unfold sliceArr
  rw [List.length_take, List.length_drop]
  omega

theorem sliceArr_nested {α : Type} (xs : List α) (a m c d : ℕ) (hd : d ≤ m) :
    sliceArr (sliceArr xs a (a + m)) c d = sliceArr xs (a + c) (a + d) := by
  unfold sliceArr
  have h1 : a + m - a = m := by omega
  rw [h1, List.drop_take, List.take_take, List.drop_drop]
  have h2 : min (d - c) (m - c) = d - c := by omega
  have h3 : a + d - (a + c) = d - c := by omega
  rw [h2, h3]

theorem slices_flatten {α : Type} (xs : List α) (m : ℕ) (k : ℕ) :
    ((List.range k).map (fun i => sliceArr xs (i * m) ((i + 1) * m))).flatten
      = xs.take (k * m) := by
  induction k with
  | zero => simp
  | succ k ih =>
    rw [List.range_succ, List.map_append, List.flatten_append]
    simp only [List.map_cons, List.map_nil, List.flatten_cons, List.flatten_nil,
      List.append_nil]
    rw [ih]
    unfold sliceArr
    have h : (k + 1) * m - k * m = m := by
      rw [Nat.succ_mul]
      omega
    rw [h, ← List.take_add]
    congr 1
    ring

theorem dStepFold_spec {α : Type} (dm : List α) (B : ℕ) (R : ℕ) :
    ∀ (acc : List (TrainEvent α)) (c : ℕ),
    (List.range R).foldl (dStepFold dm B) (acc, c)
      = (acc ++ (List.range R).map
          (fun j => TrainEvent.dStep (sliceArr dm (j * B) ((j + 1) * B)) (c + j)),
         c + R) := by
  induction R with
  | zero => intro acc c; simp
  | succ R ih =>
    intro acc c
    rw [List.range_succ, List.foldl_append, ih acc c]
    simp only [List.foldl_cons, List.foldl_nil, dStepFold]
    rw [List.map_append]
    simp only [Prod.mk.injEq]
    constructor
    · simp [List.append_assoc]
    · omega

theorem epochRun_fold {α : Type} (X : List α) (B R : ℕ) (k : ℕ) :
    (List.range k).foldl (groupFold X B R) ([], 0)
      = ((List.range k).flatMap (fun i =>
          ((List.range R).map (fun j =>
            TrainEvent.dStep
              (sliceArr (sliceArr X (i * (B * R)) ((i + 1) * (B * R))) (j * B) ((j + 1) * B))
              (i * (R + 1) + j)))
          ++ [TrainEvent.gStep (i * (R + 1) + R)]),
         k * (R + 1)) := by
  induction k with
  | zero => simp
  | succ k ih =>
    rw [List.range_succ, List.foldl_append, ih]
    simp only [List.foldl_cons, List.foldl_nil]
    unfold groupFold
    rw [dStepFold_spec]
    unfold gAfter
    rw [List.flatMap_append]
    simp only [Prod.mk.injEq]
    constructor
    · simp [List.append_assoc]
    · rw [Nat.succ_mul]
      omega

theorem range_flatMap_blocks (s : ℕ) (k : ℕ) :
    (List.range k).flatMap (fun i => (List.range s).map (fun j => i * s + j))
      = List.range (k * s) := by
  induction k with
  | zero => simp
  | succ k ih =>
    rw [List.range_succ, List.flatMap_append, ih]
    have h : (k + 1) * s = k * s + s := Nat.succ_mul k s
    rw [h, List.range_add]
    simp

/-- C2: in every epoch the data is processed in consecutive groups of size
`B * R`; the trace is, for each of the `⌊len(X) / (B * R)⌋` groups, exactly
`R` discriminator steps on the group's consecutive disjoint `B`-sized slices
followed by exactly one generator step; every step consumes the epoch's next
PRNG noise draw, so the noise indices across the epoch are
`0, ..., ⌊len(X)/(B*R)⌋*(R+1) - 1` in order and pairwise distinct — each
discriminator step gets a fresh noise batch; each image slice has length
`B`; the data touched is exactly the first `⌊len(X)/(B*R)⌋ * (B*R)` samples,
and the untrained trailing remainder is shorter than `B * R`. -/
theorem epochRun_spec {α : Type} (X : List α) (B R : ℕ) (hB : 0 < B) (hR : 0 < R) :
    epochRun X B R
      = (List.range (X.length / (B * R))).flatMap (fun i =>
          ((List.range R).map (fun j =>
            TrainEvent.dStep (sliceArr X (i * (B * R) + j * B) (i * (B * R) + (j + 1) * B))
              (i * (R + 1) + j)))
          ++ [TrainEvent.gStep (i * (R + 1) + R)])
    ∧ (epochRun X B R).map noiseOf = List.range (X.length / (B * R) * (R + 1))
    ∧ ((epochRun X B R).map noiseOf).Nodup
    ∧ (∀ i, i < X.length / (B * R) → ∀ j, j < R →
        (sliceArr X (i * (B * R) + j * B) (i * (B * R) + (j + 1) * B)).length = B)
    ∧ ((List.range (X.length / (B * R))).map
          (fun i => sliceArr X (i * (B * R)) ((i + 1) * (B * R)))).flatten
        = X.take (X.length / (B * R) * (B * R))
    ∧ X.length - X.length / (B * R) * (B * R) < B * R := by
  have hslice : ∀ j, j < R → (j + 1) * B ≤ B * R := by
    intro j hj
    calc (j + 1) * B ≤ R * B := Nat.mul_le_mul_right B hj
    _ = B * R := Nat.mul_comm R B
  have hclosed : epochRun X B R
      = (List.range (X.length / (B * R))).flatMap (fun i =>
          ((List.range R).map (fun j =>
            TrainEvent.dStep
              (sliceArr (sliceArr X (i * (B * R)) ((i + 1) * (B * R))) (j * B) ((j + 1) * B))
              (i * (R + 1) + j)))
          ++ [TrainEvent.gStep (i * (R + 1) + R)]) := by
    unfold epochRun
    rw [epochRun_fold]
  have hnoise : (epochRun X B R).map noiseOf
      = List.range (X.length / (B * R) * (R + 1)) := by
    rw [hclosed, List.map_flatMap]
    have hgrp : ∀ i ∈ List.range (X.length / (B * R)),
        (((List.range R).map (fun j =>
            TrainEvent.dStep
              (sliceArr (sliceArr X (i * (B * R)) ((i + 1) * (B * R))) (j * B) ((j + 1) * B))
              (i * (R + 1) + j)))
          ++ [TrainEvent.gStep (i * (R + 1) + R)]).map noiseOf
        = (List.range (R + 1)).map (fun j => i * (R + 1) + j) := by
      intro i _
      rw [List.map_append, List.map_map, List.range_succ, List.map_append]
      simp [Function.comp_def, noiseOf]
    rw [List.flatMap_def, List.map_congr_left hgrp, ← List.flatMap_def]
    exact range_flatMap_blocks (R + 1) _
  refine ⟨?_, hnoise, ?_, ?_, ?_, ?_⟩
  · rw [hclosed, List.flatMap_def, List.flatMap_def]
    congr 1
    apply List.map_congr_left
    intro i _
    congr 1
    apply List.map_congr_left
    intro j hj
    rw [List.mem_range] at hj
    congr 1
    have hm : (i + 1) * (B * R) = i * (B * R) + B * R := Nat.succ_mul i (B * R)
    rw [hm]
    exact sliceArr_nested X (i * (B * R)) (B * R) (j * B) ((j + 1) * B) (hslice j hj)
  · rw [hnoise]
    exact List.nodup_range _
  · intro i hi j hj
    have e1 : (i + 1) * (B * R) = i * (B * R) + B * R := Nat.succ_mul i (B * R)
    have e2 : (j + 1) * B = j * B + B := Nat.succ_mul j B
    have h1 : (j + 1) * B ≤ B * R := hslice j hj
    have h2 : (i + 1) * (B * R) ≤ X.length / (B * R) * (B * R) :=
      Nat.mul_le_mul_right (B * R) hi
    have h3 : X.length / (B * R) * (B * R) ≤ X.length := Nat.div_mul_le_self _ _
    have hub : i * (B * R) + (j + 1) * B ≤ X.length := by omega
    rw [sliceArr_length X _ _ hub]
    omega
  · exact slices_flatten X (B * R) _
  · have e := Nat.div_add_mod' X.length (B * R)
    have hlt := Nat.mod_lt X.length (Nat.mul_pos hB hR)
    omega

/-- Witness for C2 with `B = 1`, `R = 2` on a 7-element dataset (3 groups,
remainder 1, 9 pairwise-distinct noise draws). -/
theorem epochRun_spec_witness :
    0 < 1 ∧ 0 < 2
    ∧ (epochRun ([0, 1, 2, 3, 4, 5, 6] : List ℕ) 1 2).map noiseOf = List.range 9
    ∧ (sliceArr ([0, 1, 2, 3, 4, 5, 6] : List ℕ) 0 1).length = 1 := by
  have h := epochRun_spec ([0, 1, 2, 3, 4, 5, 6] : List ℕ) 1 2 (by decide) (by decide)
  refine ⟨by decide, by decide, by simpa using h.2.1, ?_⟩
  simpa using h.2.2.2.1 0 (by decide) 0 (by decide)

/-! ## Main-program order and the `--schedule` gate (cifar10.py lines 245-405)

After argument parsing the script builds the models (lines 261-266),
optionally loads retrain weights (268-270), builds the generator graph,
then checks `if args.schedule not in [None, 'adagrad', 'adam']: raise
ValueError(...)` (285-286) — before constructing optimizers, compiling
either model (321, 368), and before the training loop (379-397) makes any
`train_on_batch` call. -/

/-- Observable milestones of the main program, in execution order. -/
inductive MainEvent where
  | buildModels : MainEvent
  | loadWeights : MainEvent
  | compileGenerator : MainEvent
  | compileDiscriminator : MainEvent
  | trainStepD : MainEvent
  | trainStepG : MainEvent
  | checkpointWrite (e : ℕ) : MainEvent
deriving DecidableEq

/-- The accepted `--schedule` values (line 285): `[None, 'adagrad', 'adam']`. -/
def validSchedules : List (Option String) := [none, some "adagrad", some "adam"]

/-- The optimizer-step events of one epoch, tagged by phase. -/
def phaseEvents {α : Type} (X : List α) (R : ℕ) : List MainEvent :=
  (epochRun X BATCH_SIZE R).map (fun ev =>
    match ev with
    | TrainEvent.dStep _ _ => MainEvent.trainStepD
    | TrainEvent.gStep _ => MainEvent.trainStepG)

/-- The event trace of the main program and whether it aborted with
`ValueError` at the schedule check. `np.random.shuffle` keeps the dataset
length, so every epoch contributes the same step pattern. -/
def mainRun {α : Type} (schedule retrain : Option String) (X : List α) (R : ℕ) :
    List MainEvent × Bool :=
  let pre := [MainEvent.buildModels]
    ++ (match retrain with | some _ => [MainEvent.loadWeights] | none => [])
  if schedule ∈ validSchedules then
    (pre ++ [MainEvent.compileGenerator, MainEvent.compileDiscriminator]
      ++ (List.range NUM_EPOCHS).flatMap (fun e =>
          phaseEvents X R
            ++ (if (e + 1) % 2 = 0 then [MainEvent.checkpointWrite e] else [])),
     false)
  else (pre, true)

/-- C7: any `--schedule` value other than `None`, `'adagrad'`, `'adam'` makes
the program raise and terminate before any `train_on_batch` call: the run
aborts and its event trace contains no training step. -/
theorem schedule_gate {α : Type} (schedule retrain : Option String) (X : List α)
    (R : ℕ) (h : schedule ∉ validSchedules) :
    (mainRun schedule retrain X R).2 = true
    ∧ ∀ ev ∈ (mainRun schedule retrain X R).1,
        ev ≠ MainEvent.trainStepD ∧ ev ≠ MainEvent.trainStepG := by
  unfold mainRun
  rw [if_neg h]
  refine ⟨rfl, ?_⟩
  intro ev hev
  cases retrain with
  | none =>
    simp only [List.mem_append, List.mem_singleton, List.not_mem_nil, or_false] at hev
    subst hev
    exact ⟨by simp, by simp⟩
  | some r =>
    simp only [List.mem_append, List.mem_singleton, List.not_mem_nil, or_false,
      List.mem_cons] at hev
    rcases hev with hev | hev <;> subst hev <;> exact ⟨by simp, by simp⟩

/-- Witness for C7 at `--schedule sgd`. -/
theorem schedule_gate_witness :
    some "sgd" ∉ validSchedules
    ∧ (mainRun (some "sgd") none ([] : List ℕ) 5).2 = true := by
  have h : some "sgd" ∉ validSchedules := by decide
  exact ⟨h, (schedule_gate (some "sgd") none ([] : List ℕ) 5 h).1⟩

/-! ## Determinism of the orchestration (cifar10.py lines 379-397)

The loop's only sources of variation are the NumPy PRNG (shuffle, noise
draws, the preview draw inside `generate_images`) and the numeric backend's
optimizer steps. Both are deterministic functions of their state; they are
modelled as such, with the PRNG state threaded explicitly through the loop
exactly where the script consumes randomness. -/

/-- The deterministic external collaborators: PRNG operations (state type `ℕ`)
and the two `train_on_batch` graphs over weight types `G` (generator) and `D`
(discriminator), with noise batches of type `N`. -/
structure Backend (G D N : Type) where
  shuffle : List (List ℚ) → ℕ → List (List ℚ) × ℕ
  randNoise : ℕ → N × ℕ
  previewDraw : ℕ → ℕ
  trainD : G → D → List (List ℚ) → N → D
  trainG : G → D → N → G

/-- One discriminator step (lines 394-396): draw fresh noise, update the
discriminator weights, record the weight pair. -/
def dPhase {G D N : Type} (bk : Backend G D N) (g : G) (batch : List (List ℚ)) :
    D × ℕ × List (G × D) → D × ℕ × List (G × D) :=
  fun (d, rng, traj) =>
    let (n, rng') := bk.randNoise rng
    let d' := bk.trainD g d batch n
    (d', rng', traj ++ [(g, d')])

/-- One minibatch group (lines 390-397): `R` discriminator steps on the
group's `B`-sized slices, then one generator step on fresh noise. -/
def groupStep {G D N : Type} (bk : Backend G D N) (B R : ℕ) (X : List (List ℚ))
    (i : ℕ) : G × D × ℕ × List (G × D) → G × D × ℕ × List (G × D) :=
  fun (g, d, rng, traj) =>
    let dm := sliceArr X (i * (B * R)) ((i + 1) * (B * R))
    let (d1, rng1, traj1) := (List.range R).foldl
      (fun st j => dPhase bk g (sliceArr dm (j * B) ((j + 1) * B)) st) (d, rng, traj)
    let (n, rng2) := bk.randNoise rng1
    let g' := bk.trainG g d1 n
    (g', d1, rng2, traj1 ++ [(g', d1)])

/-- One epoch (lines 380-405): shuffle in place, run all groups, and on
checkpoint epochs consume the preview RNG draw of `generate_images`. -/
def epochStep {G D N : Type} (bk : Backend G D N) (B R : ℕ) (e : ℕ) :
    List (List ℚ) × G × D × ℕ × List (G × D)
      → List (List ℚ) × G × D × ℕ × List (G × D) :=
  fun (X, g, d, rng, traj) =>
    let (X', rng0) := bk.shuffle X rng
    let (g', d', rng1, traj') := (List.range (X'.length / (B * R))).foldl
      (fun st i => groupStep bk B R X' i st) (g, d, rng0, traj)
    let rng2 := if (e + 1) % 2 = 0 then bk.previewDraw rng1 else rng1
    (X', g', d', rng2, traj')

/-- The full 50-epoch run (line 379): the sequence of (generator,
discriminator) weight pairs after every optimizer step, as a function of the
backend, the seed and the initial weights. -/
def trainTrajectory {G D N : Type} (bk : Backend G D N) (B R : ℕ) (seed : ℕ)
    (X0 : List (List ℚ)) (g0 : G) (d0 : D) : List (G × D) :=
  ((List.range NUM_EPOCHS).foldl (fun st e => epochStep bk B R e st)
    (X0, g0, d0, seed, [])).2.2.2.2

/-- C6: with the same randomness seed and the same initial weights, two
executions of the training run produce identical parameter trajectories —
the orchestration consults nothing but its state and the PRNG. -/
theorem training_deterministic {G D N : Type} (bk : Backend G D N) (B R : ℕ)
    (X0 : List (List ℚ)) (g0 g1 : G) (d0 d1 : D) (s0 s1 : ℕ)
    (hs : s0 = s1) (hg : g0 = g1) (hd : d0 = d1) :
    trainTrajectory bk B R s0 X0 g0 d0 = trainTrajectory bk B R s1 X0 g1 d1 := by
  subst hs
  subst hg
  subst hd
  rfl

/-- A concrete deterministic backend used to witness C6. -/
def demoBackend : Backend ℕ ℕ ℕ where
  shuffle := fun X r => (X, r + 1)
  randNoise := fun r => (r, r + 1)
  previewDraw := fun r => r + 1
  trainD := fun g d batch n => d + g + n + batch.length
  trainG := fun g d n => g + d + n

/-- Witness for C6: two runs from seed 0 and equal initial weights agree. -/
theorem training_deterministic_witness :
    (0 : ℕ) = 0 ∧ (1 : ℕ) = 1 ∧ (2 : ℕ) = 2
    ∧ trainTrajectory demoBackend 64 5 0 [] 1 2
        = trainTrajectory demoBackend 64 5 0 [] 1 2 :=
  ⟨rfl, rfl, rfl, training_deterministic demoBackend 64 5 [] 1 1 2 2 0 0 rfl rfl rfl⟩

end WGAN
